import Mathlib

/-!
Shallow embedding of `src/app.py` (Streamlit purchase-order generator).
Python strings are modelled as `List Char`; `None`-able spreadsheet cell
values as an inductive `CellValue`; pandas numeric values as `Option ℚ`.
-/

namespace POApp

/-- Whitespace test used to model Python's `str.strip()` (ASCII whitespace). -/
def isSpaceChar (c : Char) : Bool :=
  decide (c.toNat = 32 ∨ c.toNat = 9 ∨ c.toNat = 10 ∨ c.toNat = 13 ∨ c.toNat = 11 ∨ c.toNat = 12)

/-- ASCII lower-casing of one character, modelling Python's `str.lower()`. -/
def lowerChar (c : Char) : Char :=
  if 65 ≤ c.toNat ∧ c.toNat ≤ 90 then Char.ofNat (c.toNat + 32) else c

/-- Left strip, first half of Python's `str.strip()`. -/
def trimLeft (l : List Char) : List Char :=
  l.dropWhile isSpaceChar

/-- Right strip, second half of Python's `str.strip()`. -/
def trimRight : List Char → List Char
  | [] => []
  | a :: t =>
    match trimRight t with
    | [] => if isSpaceChar a then [] else [a]
    | b :: r => a :: b :: r

/-- Python's `str.strip()`: drop whitespace from both ends. -/
def trimChars (l : List Char) : List Char :=
  trimRight (trimLeft l)

/-- Python's `str.lower()` over a whole string. -/
def strLower (l : List Char) : List Char :=
  l.map lowerChar

/-- Column-name normalization used in `infer_columns`: `str(c).strip().lower()`. -/
def normHeader (l : List Char) : List Char :=
  strLower (trimChars l)

/-- Forbidden set of the regex character class in `sanitize_sheet_title` (app.py line 31). -/
def invalidChars : List Char := [':', '\\', '/', '?', '*', '[', ']']

/-- Model of `sanitize_sheet_title` (app.py lines 29-34): replace each forbidden
character with a hyphen, strip surrounding whitespace, fall back to "Sheet" when
the result is empty, truncate to 31 characters. -/
def sanitize_sheet_title (title : List Char) : List Char :=
  let replaced := title.map fun c => if c ∈ invalidChars then '-' else c
  let stripped := trimChars replaced
  (if stripped = [] then "Sheet".data else stripped).take 31

/-- Python `low.startswith(k)` on character lists; first argument is the candidate `k`. -/
def startsWithB : List Char → List Char → Bool
  | [], _ => true
  | _ :: _, [] => false
  | a :: as, b :: bs => a == b && startsWithB as bs

/-- Python substring test `k in low` on character lists; first argument is `k`. -/
def containsB (needle : List Char) : List Char → Bool
  | [] => startsWithB needle []
  | a :: t => startsWithB needle (a :: t) || containsB needle t

/-- Result of `infer_columns`: one optional input-column name per canonical key. -/
structure Mapping where
  control_no : Option (List Char)
  item_no : Option (List Char)
  description : Option (List Char)
  qty : Option (List Char)
  unit : Option (List Char)
  price : Option (List Char)
  amount : Option (List Char)
deriving DecidableEq

/-- Normalized column table built at the top of `infer_columns`:
`cols = {c: str(c).strip().lower() for c in df.columns}`. -/
def mkCols (headers : List (List Char)) : List (List Char × List Char) :=
  headers.map fun c => (c, normHeader c)

/-- Model of the nested `find(*keywords)` helper of `infer_columns`: first scan for a
column whose normalized name contains every keyword as a substring, then for a column
whose normalized name starts with any keyword. -/
def findKw (cols : List (List Char × List Char)) (keywords : List (List Char)) :
    Option (List Char) :=
  match cols.find? (fun p => keywords.all fun k => containsB k p.2) with
  | some p => some p.1
  | none =>
    match cols.find? (fun p => keywords.any fun k => startsWithB k p.2) with
    | some p => some p.1
    | none => none

/-- Python truthiness-based `or` over optional column names (None and "" are falsy). -/
def pyOr : Option (List Char) → Option (List Char) → Option (List Char)
  | some s, b => if s = [] then b else some s
  | none, b => b

/-- Three-alternative chain `find(...) or find(...) or find(...)`, left associated. -/
def find3 (cols : List (List Char × List Char)) (k1 k2 k3 : List (List Char)) :
    Option (List Char) :=
  pyOr (pyOr (findKw cols k1) (findKw cols k2)) (findKw cols k3)

/-- Model of `infer_columns` (app.py lines 52-78). -/
def infer_columns (headers : List (List Char)) : Mapping :=
  let cols := mkCols headers
  { control_no := find3 cols ["control".data, "no".data] ["control".data] ["ctrl".data]
    item_no := find3 cols ["item".data, "no".data] ["item code".data] ["item".data]
    description := find3 cols ["description".data] ["desc".data] ["spec".data]
    qty := find3 cols ["qty".data] ["quantity".data] ["order qty".data]
    unit := find3 cols ["unit".data] ["uom".data] ["unit of measure".data]
    price := find3 cols ["price".data] ["rate".data] ["unit price".data]
    amount := find3 cols ["amount".data] ["total".data] ["line total".data] }

/-- Python truthiness of an optional column name, as used by `validate_mapping`. -/
def pyFalsy : Option (List Char) → Bool
  | none => true
  | some s => s.isEmpty

/-- Model of `validate_mapping` (app.py lines 81-85): names of required canonical
fields whose mapping is missing or falsy.  The required list in the source is
`["control_no", "item_no", "description", "qty"]`. -/
def missingFields (m : Mapping) : List String :=
  (([("control_no", m.control_no), ("item_no", m.item_no), ("description", m.description),
      ("qty", m.qty)]).filter fun p => pyFalsy p.2).map Prod.fst

/-- Outcome of the mapping phase of the run (app.py lines 114-120): either the run is
aborted via `st.error` plus `st.stop`, or processing proceeds with the mapping. -/
inductive RunStage where
  | aborted : List String → RunStage
  | proceeding : Mapping → RunStage
deriving DecidableEq

/-- Model of app.py lines 114-120: infer the mapping, validate it, and abort the whole
run (no fallback) when any required field is missing. -/
def mappingStage (headers : List (List Char)) : RunStage :=
  match missingFields (infer_columns headers) with
  | [] => RunStage.proceeding (infer_columns headers)
  | _ :: _ => RunStage.aborted (missingFields (infer_columns headers))

/-- Headers of the spec's resolver example. -/
def exampleHeaders : List (List Char) :=
  ["Control NO".data, "Item NO".data, "JAN".data, "Qty".data, "Price".data, "Delivery".data]

/-- Headers that satisfy the code's required set while leaving price unresolved. -/
def headersNoPrice : List (List Char) :=
  ["Control No".data, "Item No".data, "Description".data, "Qty".data]

/-- Digit value of a character, for the numeric parser model. -/
def digitVal (c : Char) : Option ℕ :=
  if 48 ≤ c.toNat ∧ c.toNat ≤ 57 then some (c.toNat - 48) else none

/-- Fold a digit string onto an accumulator; fails on any non-digit. -/
def parseNatAux : ℕ → List Char → Option ℕ
  | acc, [] => some acc
  | acc, c :: t =>
    match digitVal c with
    | some d => parseNatAux (10 * acc + d) t
    | none => none

/-- Unsigned decimal parse: an integer part and an optional fractional part split on
the first dot; at least one of the two parts must be nonempty. -/
def parseUnsigned (s : List Char) : Option ℚ :=
  let ip := s.takeWhile fun c => c ≠ '.'
  let rest := s.dropWhile fun c => c ≠ '.'
  match rest with
  | [] =>
    if ip.isEmpty then none
    else (parseNatAux 0 ip).map fun n => (n : ℚ)
  | _ :: frac =>
    if frac.contains '.' then none
    else if ip.isEmpty && frac.isEmpty then none
    else
      match parseNatAux 0 ip, parseNatAux 0 frac with
      | some a, some b => some ((a : ℚ) + (b : ℚ) / (10 : ℚ) ^ frac.length)
      | _, _ => none

/-- Signed decimal parse (an optional leading sign). -/
def parseDecimal : List Char → Option ℚ
  | '-' :: rest => (parseUnsigned rest).map fun q => -q
  | '+' :: rest => parseUnsigned rest
  | s => parseUnsigned s

/-- Model of `ensure_numeric` (app.py lines 94-95), i.e. one element of
`pd.to_numeric(s, errors="coerce")`: surrounding whitespace is tolerated, any other
unparseable content coerces to null (NaN, modelled as `none`); no currency glyphs or
thousands separators are stripped. -/
def ensure_numeric (s : List Char) : Option ℚ :=
  parseDecimal (trimChars s)

/-- Model of the derived amount column (app.py lines 126-128):
`df["__amount__"] = df[qty] * df[price]`, with pandas NaN propagation
(NaN modelled as `none`). -/
def deriveAmount (qty price : Option ℚ) : Option ℚ :=
  match qty, price with
  | some a, some b => some (a * b)
  | _, _ => none

/-- Spreadsheet cell payload: a string, a numeric value, or an empty cell. -/
inductive CellValue where
  | vstr : List Char → CellValue
  | vnum : ℚ → CellValue
  | vnone : CellValue
deriving DecidableEq

/-- One input row after the mapping and cleaning phase, restricted to the columns the
fill loop reads.  The two grouping columns are modelled as strings; `qty`, `price` and
`amount` hold the post-`ensure_numeric` cell value. -/
structure Record where
  control : List Char
  item : List Char
  desc : CellValue
  qty : CellValue
  unit : CellValue
  price : CellValue
  amount : CellValue
deriving DecidableEq

/-- Grouping key of a row: the raw values of the two key columns, as passed to
`df.groupby([mapping["control_no"], mapping["item_no"]], dropna=False)`. -/
def recKey (r : Record) : List Char × List Char :=
  (r.control, r.item)

/-- Lexicographic less-or-equal on character lists by code point, modelling the sort
order pandas applies to string group keys. -/
def lexLe : List Char → List Char → Bool
  | [], _ => true
  | _ :: _, [] => false
  | a :: as, b :: bs =>
    if a.toNat < b.toNat then true
    else if b.toNat < a.toNat then false
    else lexLe as bs

/-- Lexicographic order on key pairs, as pandas sorts grouped key tuples. -/
def keyLeB (x y : List Char × List Char) : Bool :=
  if x.1 = y.1 then lexLe x.2 y.2 else lexLe x.1 y.1

/-- Propositional form of `keyLeB`, used by the sorting lemmas. -/
def keyLe (x y : List Char × List Char) : Prop :=
  keyLeB x y = true

instance : DecidableRel keyLe :=
  fun x y => inferInstanceAs (Decidable (keyLeB x y = true))

/-- Distinct grouping keys in the order `df.groupby` iterates them: pandas keeps one
entry per distinct key and yields groups sorted ascending by key. -/
def sortedKeys (rs : List Record) : List (List Char × List Char) :=
  List.insertionSort keyLe (rs.map recKey).dedup

/-- Cell writes of the fill loop (app.py lines 163-181): for each record of the group,
in input order, write item, description, qty, unit, price, amount into columns 1-6 of
the current row, then advance the row pointer. -/
def fillCells : ℕ → List Record → List ((ℕ × ℕ) × CellValue)
  | _, [] => []
  | rowPtr, r :: rest =>
    ((rowPtr, 1), CellValue.vstr r.item) :: ((rowPtr, 2), r.desc) :: ((rowPtr, 3), r.qty) ::
      ((rowPtr, 4), r.unit) :: ((rowPtr, 5), r.price) :: ((rowPtr, 6), r.amount) ::
      fillCells (rowPtr + 1) rest

/-- One generated sheet: its grouping key, its sanitized title, and its table cells. -/
structure Sheet where
  key : List Char × List Char
  title : List Char
  cells : List ((ℕ × ℕ) × CellValue)
deriving DecidableEq

/-- Sheet built for one group (app.py lines 156-184): rename a template copy to the
sanitized `f"{control_no}_{item_no}"` and fill the group's rows from `start_row`. -/
def mkSheet (startRow : ℕ) (k : List Char × List Char) (g : List Record) : Sheet :=
  { key := k
    title := sanitize_sheet_title (k.1 ++ '_' :: k.2)
    cells := fillCells startRow g }

/-- Model of the grouping loop: one sheet per distinct key in pandas iteration order,
each filled with every record of its group in original input order. -/
def generateSheets (startRow : ℕ) (rs : List Record) : List Sheet :=
  (sortedKeys rs).map fun k => mkSheet startRow k (rs.filter fun r => decide (recKey r = k))

/-- Model of `try: wb.remove(tpl_ws) except: pass` (app.py lines 187-191): removal of
a sheet succeeds when present, and a failure leaves the workbook unchanged. -/
def tryRemove (sheets : List (List Char)) (t : List Char) : List (List Char) :=
  if t ∈ sheets then sheets.erase t else sheets

/-- Sheet titles of the final workbook for a template workbook whose only sheet is the
reference sheet `tpl`: the copies are appended after it, and the template sheet is
removed at the end when configured. -/
def finalSheetTitles (startRow : ℕ) (tpl : List Char) (rs : List Record)
    (removeTpl : Bool) : List (List Char) :=
  let titles := tpl :: (generateSheets startRow rs).map Sheet.title
  if removeTpl then tryRemove titles tpl else titles

/-- Example record with the given key columns and qty, other fields fixed. -/
def mkRec (control item : List Char) (q : ℚ) : Record :=
  { control := control, item := item, desc := CellValue.vstr "d".data,
    qty := CellValue.vnum q, unit := CellValue.vstr [], price := CellValue.vnone,
    amount := CellValue.vnone }

/-- Two records sharing the grouping key ("C1", "I1"), with different quantities. -/
def exDup : List Record :=
  [mkRec "C1".data "I1".data 1, mkRec "C1".data "I1".data 2]

/-- Two records whose keys appear in the input in the order B, A. -/
def exOrder : List Record :=
  [mkRec "B".data "1".data 1, mkRec "A".data "1".data 2]

/-- Record with every field populated, for the cell-coordinate counterexample. -/
def rx : Record :=
  { control := "C1".data, item := "I1".data, desc := CellValue.vstr "widget".data,
    qty := CellValue.vnum 6000, unit := CellValue.vstr "pc".data,
    price := CellValue.vnum 60, amount := CellValue.vnum 360000 }

/-- Longest rendered length over the non-empty cells of one column (app.py lines
40-47): a `None` cell is skipped, any other value contributes the length of its
string rendering. -/
def maxCellLen (cells : List (Option (List Char))) : ℕ :=
  cells.foldl
    (fun m v =>
      match v with
      | none => m
      | some s => max m s.length)
    0

/-- Column width assigned by `auto_width` (app.py line 49):
`max(10, min(max_len + 2, 60))`. -/
def autoWidth (cells : List (Option (List Char))) : ℕ :=
  max 10 (min (maxCellLen cells + 2) 60)

theorem toNat_ofNat_valid (n : ℕ) (h : n.isValidChar) : (Char.ofNat n).toNat = n := by
  unfold Char.ofNat
  rw [dif_pos h]
  rfl

theorem lowerChar_of_upper {c : Char} (h : 65 ≤ c.toNat ∧ c.toNat ≤ 90) :
    lowerChar c = Char.ofNat (c.toNat + 32) := by
  unfold lowerChar
  exact if_pos h

theorem lowerChar_of_not {c : Char} (h : ¬(65 ≤ c.toNat ∧ c.toNat ≤ 90)) :
    lowerChar c = c := by
  unfold lowerChar
  exact if_neg h

theorem toNat_lowerChar_upper {c : Char} (h : 65 ≤ c.toNat ∧ c.toNat ≤ 90) :
    (lowerChar c).toNat = c.toNat + 32 := by
  rw [lowerChar_of_upper h]
  exact toNat_ofNat_valid _ (Or.inl (by omega))

theorem lowerChar_lowerChar (c : Char) : lowerChar (lowerChar c) = lowerChar c := by
  by_cases h : 65 ≤ c.toNat ∧ c.toNat ≤ 90
  · have ht := toNat_lowerChar_upper h
    exact lowerChar_of_not (by omega)
  · rw [lowerChar_of_not h]
    exact lowerChar_of_not h

theorem isSpaceChar_lowerChar (c : Char) : isSpaceChar (lowerChar c) = isSpaceChar c := by
  by_cases h : 65 ≤ c.toNat ∧ c.toNat ≤ 90
  · have ht := toNat_lowerChar_upper h
    unfold isSpaceChar
    rw [decide_eq_decide]
    omega
  · rw [lowerChar_of_not h]

theorem strLower_strLower (l : List Char) : strLower (strLower l) = strLower l := by
  unfold strLower
  rw [List.map_map]
  exact List.map_congr_left fun a _ => lowerChar_lowerChar a

theorem trimLeft_trimLeft (l : List Char) : trimLeft (trimLeft l) = trimLeft l := by
  unfold trimLeft
  induction l with
  | nil => rfl
  | cons a t ih =>
    by_cases h : isSpaceChar a
    · rw [List.dropWhile_cons_of_pos h, ih]
    · rw [List.dropWhile_cons_of_neg h, List.dropWhile_cons_of_neg h]

theorem trimRight_cons_nil {t : List Char} (a : Char) (h : trimRight t = []) :
    trimRight (a :: t) = if isSpaceChar a then [] else [a] := by
  unfold trimRight
  rw [h]

theorem trimRight_cons_cons {t : List Char} {b : Char} {r : List Char} (a : Char)
    (h : trimRight t = b :: r) : trimRight (a :: t) = a :: b :: r := by
  unfold trimRight
  rw [h]

theorem trimRight_trimRight (l : List Char) : trimRight (trimRight l) = trimRight l := by
  induction l with
  | nil => rfl
  | cons a t ih =>
    cases h : trimRight t with
    | nil =>
      rw [trimRight_cons_nil a h]
      by_cases hs : isSpaceChar a
      · rw [if_pos hs]
        rfl
      · rw [if_neg hs, trimRight_cons_nil (t := []) a rfl, if_neg hs]
    | cons b r =>
      rw [h] at ih
      rw [trimRight_cons_cons a h]
      exact trimRight_cons_cons a ih

theorem trimRight_cons_shape (a : Char) (t : List Char) :
    trimRight (a :: t) = [] ∨ ∃ r, trimRight (a :: t) = a :: r := by
  cases h : trimRight t with
  | nil =>
    by_cases hs : isSpaceChar a
    · left
      rw [trimRight_cons_nil a h, if_pos hs]
    · right
      exact ⟨[], by rw [trimRight_cons_nil a h, if_neg hs]⟩
  | cons b r =>
    right
    exact ⟨b :: r, trimRight_cons_cons a h⟩

theorem not_space_head_of_trimLeft_eq {a : Char} {t : List Char}
    (h : trimLeft (a :: t) = a :: t) : ¬(isSpaceChar a = true) := by
  intro hs
  unfold trimLeft at h
  rw [List.dropWhile_cons_of_pos hs] at h
  have := congrArg List.length h
  have hle := (List.dropWhile_sublist (l := t) (p := isSpaceChar)).length_le
  simp at this
  omega

theorem trimLeft_trimRight_of_clean {u : List Char} (hu : trimLeft u = u) :
    trimLeft (trimRight u) = trimRight u := by
  cases u with
  | nil => rfl
  | cons a t =>
    have ha := not_space_head_of_trimLeft_eq hu
    rcases trimRight_cons_shape a t with h | ⟨r, h⟩
    · rw [h]
      rfl
    · rw [h]
      unfold trimLeft
      rw [List.dropWhile_cons_of_neg ha]

theorem trimChars_trimChars (l : List Char) : trimChars (trimChars l) = trimChars l := by
  unfold trimChars
  rw [trimLeft_trimRight_of_clean (trimLeft_trimLeft l), trimRight_trimRight]

theorem trimLeft_strLower (l : List Char) : trimLeft (strLower l) = strLower (trimLeft l) := by
  induction l with
  | nil => rfl
  | cons a t ih =>
    show trimLeft (lowerChar a :: strLower t) = strLower (trimLeft (a :: t))
    by_cases h : isSpaceChar a
    · unfold trimLeft
      rw [List.dropWhile_cons_of_pos (by rw [isSpaceChar_lowerChar]; exact h)]
      unfold trimLeft at ih
      rw [ih, List.dropWhile_cons_of_pos h]
    · unfold trimLeft
      rw [List.dropWhile_cons_of_neg (by rw [isSpaceChar_lowerChar]; exact h),
        List.dropWhile_cons_of_neg h]
      rfl

theorem trimRight_strLower (l : List Char) : trimRight (strLower l) = strLower (trimRight l) := by
  induction l with
  | nil => rfl
  | cons a t ih =>
    show trimRight (lowerChar a :: strLower t) = strLower (trimRight (a :: t))
    cases h : trimRight t with
    | nil =>
      have hl : trimRight (strLower t) = [] := by
        rw [ih, h]
        rfl
      by_cases hs : isSpaceChar a
      · rw [trimRight_cons_nil _ hl, trimRight_cons_nil a h, isSpaceChar_lowerChar, if_pos hs,
          if_pos hs]
        rfl
      · rw [trimRight_cons_nil _ hl, trimRight_cons_nil a h, isSpaceChar_lowerChar, if_neg hs,
          if_neg hs]
        rfl
    | cons b r =>
      have hl : trimRight (strLower t) = lowerChar b :: strLower r := by
        rw [ih, h]
        rfl
      rw [trimRight_cons_cons _ hl, trimRight_cons_cons a h]
      rfl

theorem trimChars_strLower (l : List Char) : trimChars (strLower l) = strLower (trimChars l) := by
  unfold trimChars
  rw [trimLeft_strLower, trimRight_strLower]

theorem normHeader_normHeader (l : List Char) : normHeader (normHeader l) = normHeader l := by
  unfold normHeader
  rw [trimChars_strLower, trimChars_trimChars, strLower_strLower]

theorem mem_trimRight {c : Char} {l : List Char} (h : c ∈ trimRight l) : c ∈ l := by
  induction l with
  | nil => exact absurd h (by intro hc; cases hc)
  | cons a t ih =>
    cases ht : trimRight t with
    | nil =>
      rw [trimRight_cons_nil a ht] at h
      by_cases hs : isSpaceChar a
      · rw [if_pos hs] at h
        cases h
      · rw [if_neg hs] at h
        rcases List.mem_cons.mp h with h1 | h1
        · exact h1 ▸ List.mem_cons_self a t
        · cases h1
    | cons b r =>
      rw [trimRight_cons_cons a ht] at h
      rw [ht] at ih
      rcases List.mem_cons.mp h with h1 | h1
      · exact h1 ▸ List.mem_cons_self a t
      · exact List.mem_cons_of_mem a (ih h1)

theorem mem_trimChars {c : Char} {l : List Char} (h : c ∈ trimChars l) : c ∈ l := by
  unfold trimChars at h
  have h1 := mem_trimRight h
  exact (List.dropWhile_sublist (l := l) (p := isSpaceChar)).mem h1

theorem trimLeft_eq_nil_of_all_space {l : List Char} (h : ∀ c ∈ l, isSpaceChar c = true) :
    trimLeft l = [] := by
  induction l with
  | nil => rfl
  | cons a t ih =>
    unfold trimLeft
    rw [List.dropWhile_cons_of_pos (h a (by simp))]
    exact ih fun c hc => h c (List.mem_cons_of_mem a hc)

theorem trimChars_eq_nil_of_all_space {l : List Char} (h : ∀ c ∈ l, isSpaceChar c = true) :
    trimChars l = [] := by
  unfold trimChars
  rw [trimLeft_eq_nil_of_all_space h]
  rfl

theorem replaced_not_invalid (title : List Char) :
    ∀ c ∈ title.map (fun c => if c ∈ invalidChars then '-' else c), c ∉ invalidChars := by
  intro c hc
  rcases List.mem_map.mp hc with ⟨a, _, rfl⟩
  by_cases ha : a ∈ invalidChars
  · rw [if_pos ha]
    decide
  · rw [if_neg ha]
    exact ha

/-- C5: for every input string, the sheet-title sanitizer replaces forbidden characters
by hyphens, strips whitespace, falls back to "Sheet" and truncates, so its output has
length at most 31, contains no character of the forbidden set, and is never empty. -/
theorem sanitize_sheet_title_spec (title : List Char) :
    (sanitize_sheet_title title).length ≤ 31 ∧
    (∀ c ∈ sanitize_sheet_title title, c ∉ invalidChars) ∧
    sanitize_sheet_title title ≠ [] := by
  have hdef : sanitize_sheet_title title =
      (if trimChars (title.map fun c => if c ∈ invalidChars then '-' else c) = []
        then "Sheet".data
        else trimChars (title.map fun c => if c ∈ invalidChars then '-' else c)).take 31 := rfl
  rw [hdef]
  by_cases he : trimChars (title.map fun c => if c ∈ invalidChars then '-' else c) = []
  · rw [if_pos he]
    refine ⟨by decide, ?_, by decide⟩
    intro c hc
    have h1 : c ∈ "Sheet".data := (List.take_sublist _ _).mem hc
    fin_cases h1 <;> decide
  · rw [if_neg he]
    refine ⟨?_, ?_, ?_⟩
    · rw [List.length_take]
      exact Nat.min_le_left _ _
    · intro c hc
      have h1 := (List.take_sublist _ _).mem hc
      exact replaced_not_invalid title c (mem_trimChars h1)
    · intro h0
      rcases List.take_eq_nil_iff.mp h0 with h | h
      · exact absurd h (by decide)
      · exact he h

theorem sanitize_sheet_title_spec_witness :
    (sanitize_sheet_title "a:b".data).length ≤ 31 ∧
    sanitize_sheet_title "a:b".data ≠ [] ∧
    ':' ∉ sanitize_sheet_title "a:b".data :=
  ⟨(sanitize_sheet_title_spec "a:b".data).1,
   (sanitize_sheet_title_spec "a:b".data).2.2,
   fun h => (sanitize_sheet_title_spec "a:b".data).2.1 ':' h (by decide)⟩

/-- C9: the header normalization performed by `infer_columns` — strip surrounding
whitespace then lowercase, applied to each header of the list — is idempotent. -/
theorem normalize_headers_idempotent (hs : List (List Char)) :
    (hs.map normHeader).map normHeader = hs.map normHeader := by
  rw [List.map_map]
  exact List.map_congr_left fun a _ => normHeader_normHeader a

theorem findKw_mem {cols : List (List Char × List Char)} {kws : List (List Char)}
    {c : List Char} (h : findKw cols kws = some c) : ∃ p ∈ cols, p.1 = c := by
  unfold findKw at h
  cases h1 : List.find? (fun p => kws.all fun k => containsB k p.2) cols with
  | some p =>
    rw [h1] at h
    refine ⟨p, List.mem_of_find?_eq_some h1, ?_⟩
    injection h with h
  | none =>
    rw [h1] at h
    cases h2 : List.find? (fun p => kws.any fun k => startsWithB k p.2) cols with
    | some p =>
      rw [h2] at h
      refine ⟨p, List.mem_of_find?_eq_some h2, ?_⟩
      injection h with h
    | none =>
      rw [h2] at h
      cases h

theorem pyOr_eq_some {a b : Option (List Char)} {c : List Char} (h : pyOr a b = some c) :
    a = some c ∨ b = some c := by
  cases a with
  | none =>
    exact Or.inr h
  | some s =>
    simp only [pyOr] at h
    by_cases hs : s = []
    · rw [if_pos hs] at h
      exact Or.inr h
    · rw [if_neg hs] at h
      exact Or.inl h

theorem find3_mem {headers : List (List Char)} {k1 k2 k3 : List (List Char)} {c : List Char}
    (h : find3 (mkCols headers) k1 k2 k3 = some c) : c ∈ headers := by
  have memOf : ∀ {kws : List (List Char)}, findKw (mkCols headers) kws = some c →
      c ∈ headers := by
    intro kws hk
    rcases findKw_mem hk with ⟨p, hp, hpc⟩
    unfold mkCols at hp
    rcases List.mem_map.mp hp with ⟨a, ha, hpa⟩
    rw [← hpc, ← hpa]
    exact ha
  unfold find3 at h
  rcases pyOr_eq_some h with h' | h'
  · rcases pyOr_eq_some h' with h'' | h''
    · exact memOf h''
    · exact memOf h''
  · exact memOf h'

/-- C3 counterexample: on the spec's own example headers the resolver of the code does
not resolve every required field — `description` (required by `validate_mapping`) stays
unresolved, as do `unit` and `amount`, and no barcode or delivery field exists in the
mapping at all. -/
theorem infer_columns_counterexample :
    (infer_columns exampleHeaders).description = none ∧
    (infer_columns exampleHeaders).unit = none ∧
    (infer_columns exampleHeaders).amount = none ∧
    missingFields (infer_columns exampleHeaders) ≠ [] := by
  refine ⟨by decide, by decide, by decide, by decide⟩

/-- C3 (amended): `infer_columns` is a two-stage keyword matcher over trimmed,
lowercased headers (all-keywords-substring scan, then any-keyword-startswith scan),
with alternative keyword groups tried left to right per field; every resolved field
names an actual input header, and on the headers
`["Control NO", "Item NO", "JAN", "Qty", "Price", "Delivery"]` it resolves
control_no, item_no, qty and price while leaving description, unit and amount
unresolved. -/
theorem infer_columns_resolution (hs : List (List Char)) :
    (∀ c, (infer_columns hs).control_no = some c → c ∈ hs) ∧
    (∀ c, (infer_columns hs).item_no = some c → c ∈ hs) ∧
    (∀ c, (infer_columns hs).description = some c → c ∈ hs) ∧
    (∀ c, (infer_columns hs).qty = some c → c ∈ hs) ∧
    (∀ c, (infer_columns hs).unit = some c → c ∈ hs) ∧
    (∀ c, (infer_columns hs).price = some c → c ∈ hs) ∧
    (∀ c, (infer_columns hs).amount = some c → c ∈ hs) ∧
    infer_columns exampleHeaders =
      { control_no := some "Control NO".data, item_no := some "Item NO".data,
        description := none, qty := some "Qty".data, unit := none,
        price := some "Price".data, amount := none } := by
  refine ⟨fun c h => find3_mem h, fun c h => find3_mem h, fun c h => find3_mem h,
    fun c h => find3_mem h, fun c h => find3_mem h, fun c h => find3_mem h,
    fun c h => find3_mem h, by decide⟩

theorem infer_columns_resolution_witness : "Control NO".data ∈ exampleHeaders :=
  (infer_columns_resolution exampleHeaders).1 "Control NO".data (by decide)

/-- C4 counterexample: with headers `["Control No", "Item No", "Description", "Qty"]`
the run proceeds even though price (claimed to be required) is unresolved; and with the
spec's example headers the run is aborted (stopped with an error), not blocked pending
a user-supplied mapping. -/
theorem mappingStage_counterexample :
    mappingStage headersNoPrice = RunStage.proceeding (infer_columns headersNoPrice) ∧
    (infer_columns headersNoPrice).price = none ∧
    mappingStage exampleHeaders = RunStage.aborted ["description"] := by
  refine ⟨by decide, by decide, by decide⟩

/-- C4 (amended): whenever any of the required fields of the code —
control_no, item_no, description, qty — is unresolved (or maps to an empty name)
after automatic detection, the run is aborted with an error listing exactly those
fields; no other field can block the run, and there is no fallback that requests an
explicit user mapping. -/
theorem mappingStage_abort_rule (hs : List (List Char)) :
    (missingFields (infer_columns hs) = [] →
      mappingStage hs = RunStage.proceeding (infer_columns hs)) ∧
    (missingFields (infer_columns hs) ≠ [] →
      mappingStage hs = RunStage.aborted (missingFields (infer_columns hs))) ∧
    (∀ x ∈ missingFields (infer_columns hs),
      x ∈ (["control_no", "item_no", "description", "qty"] : List String)) := by
  refine ⟨?_, ?_, ?_⟩
  · intro h
    unfold mappingStage
    rw [h]
  · intro h
    unfold mappingStage
    cases hm : missingFields (infer_columns hs) with
    | nil => exact absurd hm h
    | cons a t => rfl
  · intro x hx
    unfold missingFields at hx
    rcases List.mem_map.mp hx with ⟨p, hp, hpx⟩
    have hpb := List.mem_of_mem_filter hp
    subst hpx
    simp only [List.mem_cons, List.not_mem_nil, or_false] at hpb
    rcases hpb with h | h | h | h <;> subst h <;> simp

theorem mappingStage_abort_rule_witness :
    mappingStage exampleHeaders = RunStage.aborted (missingFields (infer_columns exampleHeaders)) ∧
    ("description" : String) ∈ (["control_no", "item_no", "description", "qty"] : List String) :=
  ⟨(mappingStage_abort_rule exampleHeaders).2.1 (by decide),
   (mappingStage_abort_rule exampleHeaders).2.2 "description" (by decide)⟩

theorem charEq_of_toNat_eq {a b : Char} (h : a.toNat = b.toNat) : a = b := by
  have ha := Char.ofNat_toNat a
  rw [← ha, h, Char.ofNat_toNat]

theorem lexLe_total (a : List Char) : ∀ b, lexLe a b = true ∨ lexLe b a = true := by
  induction a with
  | nil =>
    intro b
    left
    rfl
  | cons a as ih =>
    intro b
    cases b with
    | nil =>
      right
      rfl
    | cons b bs =>
      rcases Nat.lt_trichotomy a.toNat b.toNat with h1 | h1 | h1
      · left
        simp [lexLe, h1]
      · have e := charEq_of_toNat_eq h1
        subst e
        rcases ih bs with h | h
        · left
          simp [lexLe, h]
        · right
          simp [lexLe, h]
      · right
        simp [lexLe, h1]

theorem lexLe_trans (a : List Char) : ∀ b c, lexLe a b = true → lexLe b c = true →
    lexLe a c = true := by
  induction a with
  | nil =>
    intro b c _ _
    rfl
  | cons a as ih =>
    intro b c hab hbc
    cases b with
    | nil => simp [lexLe] at hab
    | cons b bs =>
      cases c with
      | nil => simp [lexLe] at hbc
      | cons c cs =>
        rcases Nat.lt_trichotomy a.toNat b.toNat with h1 | h1 | h1
        · rcases Nat.lt_trichotomy b.toNat c.toNat with h2 | h2 | h2
          · have h3 : a.toNat < c.toNat := by omega
            simp [lexLe, h3]
          · have h3 : a.toNat < c.toNat := by omega
            simp [lexLe, h3]
          · simp [lexLe, h2, show ¬b.toNat < c.toNat by omega] at hbc
        · have e := charEq_of_toNat_eq h1
          subst e
          simp [lexLe] at hab
          rcases Nat.lt_trichotomy a.toNat c.toNat with h2 | h2 | h2
          · simp [lexLe, h2]
          · have e2 := charEq_of_toNat_eq h2
            subst e2
            simp [lexLe] at hbc ⊢
            exact ih bs cs hab hbc
          · simp [lexLe, h2, show ¬a.toNat < c.toNat by omega] at hbc
        · simp [lexLe, h1, show ¬a.toNat < b.toNat by omega] at hab

theorem lexLe_antisymm (a : List Char) : ∀ b, lexLe a b = true → lexLe b a = true →
    a = b := by
  induction a with
  | nil =>
    intro b h1 h2
    cases b with
    | nil => rfl
    | cons b bs => simp [lexLe] at h2
  | cons a as ih =>
    intro b h1 h2
    cases b with
    | nil => simp [lexLe] at h1
    | cons b bs =>
      rcases Nat.lt_trichotomy a.toNat b.toNat with h | h | h
      · simp [lexLe, h, show ¬b.toNat < a.toNat by omega] at h2
      · have e := charEq_of_toNat_eq h
        subst e
        simp [lexLe] at h1 h2
        rw [ih bs h1 h2]
      · simp [lexLe, h, show ¬a.toNat < b.toNat by omega] at h1

instance : IsTotal (List Char × List Char) keyLe :=
  ⟨by
    intro x y
    unfold keyLe keyLeB
    by_cases h : x.1 = y.1
    · rw [if_pos h, if_pos h.symm]
      exact lexLe_total x.2 y.2
    · rw [if_neg h, if_neg fun e => h e.symm]
      exact lexLe_total x.1 y.1⟩

instance : IsTrans (List Char × List Char) keyLe :=
  ⟨by
    intro x y z hxy hyz
    unfold keyLe keyLeB at hxy hyz ⊢
    by_cases e1 : x.1 = y.1 <;> by_cases e2 : y.1 = z.1
    · rw [if_pos e1] at hxy
      rw [if_pos e2] at hyz
      rw [if_pos (e1.trans e2)]
      exact lexLe_trans _ _ _ hxy hyz
    · rw [if_pos e1] at hxy
      rw [if_neg e2] at hyz
      rw [if_neg (by rw [e1]; exact e2), e1]
      exact hyz
    · rw [if_neg e1] at hxy
      rw [if_pos e2] at hyz
      rw [if_neg (by rw [← e2]; exact e1), ← e2]
      exact hxy
    · rw [if_neg e1] at hxy
      rw [if_neg e2] at hyz
      by_cases e3 : x.1 = z.1
      · exfalso
        apply e1
        apply lexLe_antisymm _ _ hxy
        rw [← e3] at hyz
        exact hyz
      · rw [if_neg e3]
        exact lexLe_trans _ _ _ hxy hyz⟩

theorem generateSheets_map_key (startRow : ℕ) (rs : List Record) :
    (generateSheets startRow rs).map Sheet.key = sortedKeys rs := by
  unfold generateSheets
  rw [List.map_map]
  exact (List.map_congr_left fun a _ => rfl).trans (List.map_id _)

/-- C1 counterexample: with two input records sharing the key ("C1", "I1") and
different quantities, the single generated sheet contains the cells of both records
(twelve writes over rows 9 and 10), so the second record is not discarded; and with
input keys in the order B, A the sheets come out in sorted order A, B, not in
first-occurrence order. -/
theorem grouped_counterexample :
    (generateSheets 9 exDup).map (fun s => s.cells.map Prod.fst) =
      [[(9, 1), (9, 2), (9, 3), (9, 4), (9, 5), (9, 6),
        (10, 1), (10, 2), (10, 3), (10, 4), (10, 5), (10, 6)]] ∧
    ((10, 3), CellValue.vnum 2) ∈ (generateSheets 9 exDup).flatMap Sheet.cells ∧
    (generateSheets 9 exOrder).map Sheet.title = ["A_1".data, "B_1".data] := by
  refine ⟨by decide, by decide, by decide⟩

/-- C1 (amended): the grouping loop creates exactly one sheet per distinct
(control_no, item_no) key — the keys of the generated sheets are exactly the distinct
input keys, without duplicates — but the sheets appear in ascending sorted key order
(the pandas groupby iteration order), not in first-occurrence order, and each key's
sheet is filled from every record of that key's group in input order, not only the
first one. -/
theorem grouped_sheets_spec (startRow : ℕ) (rs : List Record) :
    ((generateSheets startRow rs).map Sheet.key).Nodup ∧
    List.Sorted keyLe ((generateSheets startRow rs).map Sheet.key) ∧
    (∀ k, k ∈ (generateSheets startRow rs).map Sheet.key ↔ k ∈ rs.map recKey) ∧
    (∀ s ∈ generateSheets startRow rs,
      s.cells = fillCells startRow (rs.filter fun r => decide (recKey r = s.key)) ∧
      s.title = sanitize_sheet_title (s.key.1 ++ '_' :: s.key.2)) := by
  rw [generateSheets_map_key]
  refine ⟨?_, ?_, ?_, ?_⟩
  · exact (List.perm_insertionSort keyLe _).nodup_iff.mpr ((rs.map recKey).nodup_dedup)
  · exact List.sorted_insertionSort keyLe _
  · intro k
    unfold sortedKeys
    rw [List.mem_insertionSort, List.mem_dedup]
  · intro s hs
    unfold generateSheets at hs
    rcases List.mem_map.mp hs with ⟨k, _, rfl⟩
    exact ⟨rfl, rfl⟩

theorem grouped_sheets_spec_witness :
    (mkSheet 9 ("C1".data, "I1".data)
        (exDup.filter fun r => decide (recKey r = ("C1".data, "I1".data)))).cells =
      fillCells 9 (exDup.filter fun r =>
        decide (recKey r = (mkSheet 9 ("C1".data, "I1".data)
          (exDup.filter fun r => decide (recKey r = ("C1".data, "I1".data)))).key)) :=
  ((grouped_sheets_spec 9 exDup).2.2.2 _ (by decide)).1

/-- C2 counterexample: for a fully populated record and the default start row 9 the
fill loop writes exactly the six cells (9,1)..(9,6) holding item, description, qty,
unit, price and amount; none of the fixed coordinates claimed by the spec — AD9,
E16, S16, B28, AA24, N30, N32, F37 — is written, control_no is written nowhere, and
the price value lands in exactly one cell rather than two. -/
theorem fixed_cells_counterexample :
    fillCells 9 [rx] =
      [((9, 1), CellValue.vstr "I1".data), ((9, 2), CellValue.vstr "widget".data),
       ((9, 3), CellValue.vnum 6000), ((9, 4), CellValue.vstr "pc".data),
       ((9, 5), CellValue.vnum 60), ((9, 6), CellValue.vnum 360000)] ∧
    (9, 30) ∉ (fillCells 9 [rx]).map Prod.fst ∧
    (16, 5) ∉ (fillCells 9 [rx]).map Prod.fst ∧
    (16, 19) ∉ (fillCells 9 [rx]).map Prod.fst ∧
    (28, 2) ∉ (fillCells 9 [rx]).map Prod.fst ∧
    (24, 27) ∉ (fillCells 9 [rx]).map Prod.fst ∧
    (30, 14) ∉ (fillCells 9 [rx]).map Prod.fst ∧
    (32, 14) ∉ (fillCells 9 [rx]).map Prod.fst ∧
    (37, 6) ∉ (fillCells 9 [rx]).map Prod.fst ∧
    ((fillCells 9 [rx]).filter fun q => q.2 == rx.price).length = 1 := by
  decide

/-- C2 (amended): the fill loop writes 6 cells per record of the group — item_no,
description, qty, unit, price, amount into columns 1 through 6 (A..F) of consecutive
rows starting at the configured start row; every written cell lies in that row and
column range, control_no has no target cell, and price has exactly one target cell
per row. -/
theorem fillCells_spec (startRow : ℕ) (g : List Record) :
    (fillCells startRow g).length = 6 * g.length ∧
    (∀ rc ∈ (fillCells startRow g).map fun q => q.1.1,
      startRow ≤ rc ∧ rc < startRow + g.length) ∧
    (∀ cc ∈ (fillCells startRow g).map fun q => q.1.2, 1 ≤ cc ∧ cc ≤ 6) := by
  induction g generalizing startRow with
  | nil =>
    refine ⟨rfl, ?_, ?_⟩ <;> intro x hx <;> exact absurd hx (by simp [fillCells])
  | cons r rest ih =>
    refine ⟨?_, ?_, ?_⟩
    · have h1 := (ih (startRow + 1)).1
      simp only [fillCells, List.length_cons, h1]
      omega
    · intro rc hrc
      simp only [List.length_cons]
      simp [fillCells] at hrc
      rcases hrc with rfl | h
      · omega
      · have h2 := (ih (startRow + 1)).2.1 rc (by simpa using h)
        omega
    · intro cc hcc
      simp [fillCells] at hcc
      rcases hcc with rfl | rfl | rfl | rfl | rfl | rfl | h
      · omega
      · omega
      · omega
      · omega
      · omega
      · omega
      · exact (ih (startRow + 1)).2.2 cc (by simpa using h)

theorem fillCells_spec_witness :
    (fillCells 9 [rx]).length = 6 * [rx].length ∧
    ((9 : ℕ) ≤ 9 ∧ 9 < 9 + [rx].length) ∧
    ((1 : ℕ) ≤ 1 ∧ 1 ≤ 6) :=
  ⟨(fillCells_spec 9 [rx]).1,
   (fillCells_spec 9 [rx]).2.1 9 (by decide),
   (fillCells_spec 9 [rx]).2.2 1 (by decide)⟩

/-- C8: when removal of the template sheet is configured it happens after the fill
loop and is best-effort — an absent sheet leaves the workbook unchanged — and on a
template workbook whose only sheet is the reference sheet, successful removal leaves
exactly the generated sheets, so the output sheet count equals the number of
generated sheets (not one more); without the option the template sheet stays first. -/
theorem remove_template_spec (startRow : ℕ) (tpl : List Char) (rs : List Record) :
    finalSheetTitles startRow tpl rs true = (generateSheets startRow rs).map Sheet.title ∧
    (finalSheetTitles startRow tpl rs true).length = (generateSheets startRow rs).length ∧
    finalSheetTitles startRow tpl rs false =
      tpl :: (generateSheets startRow rs).map Sheet.title ∧
    (∀ sheets t, t ∉ sheets → tryRemove sheets t = sheets) := by
  have h1 : finalSheetTitles startRow tpl rs true =
      (generateSheets startRow rs).map Sheet.title := by
    show tryRemove (tpl :: (generateSheets startRow rs).map Sheet.title) tpl = _
    unfold tryRemove
    rw [if_pos (List.mem_cons_self _ _)]
    exact List.erase_cons_head _ _
  refine ⟨h1, by rw [h1, List.length_map], rfl, ?_⟩
  intro sheets t ht
  unfold tryRemove
  rw [if_neg ht]

theorem remove_template_spec_witness :
    ("X".data ∉ (["A".data, "B".data] : List (List Char))) ∧
    tryRemove ["A".data, "B".data] "X".data = ["A".data, "B".data] :=
  ⟨by decide, (remove_template_spec 9 "T".data []).2.2.2 _ _ (by decide)⟩

/-- C6 counterexample: `pd.to_numeric(·, errors="coerce")` does not strip yen signs
or thousands separators, so "¥6,000" coerces to null, not to 6000. -/
theorem ensure_numeric_counterexample :
    ensure_numeric "¥6,000".data = none ∧ (none : Option ℚ) ≠ some 6000 := by
  refine ⟨by decide, by decide⟩

/-- C6 (amended): numeric parsing treats blank input as absent (null, not zero) and
never raises, but performs no stripping of commas or yen glyphs and no whitespace
retry — strings such as "¥6,000" or "6,000" simply coerce to null, while plain
decimal strings parse. -/
theorem ensure_numeric_spec (s : List Char) :
    ((∀ c ∈ s, isSpaceChar c = true) → ensure_numeric s = none) ∧
    ensure_numeric "¥6,000".data = none ∧
    ensure_numeric "6,000".data = none ∧
    ensure_numeric "6000".data = some 6000 ∧
    ensure_numeric "60.6".data = some (303 / 5) := by
  refine ⟨?_, by decide, by decide, by decide, ?_⟩
  · intro h
    unfold ensure_numeric
    rw [trimChars_eq_nil_of_all_space h]
    rfl
  · have h : ensure_numeric "60.6".data =
        some ((((60 : ℕ)) : ℚ) + (((6 : ℕ)) : ℚ) / (10 : ℚ) ^ (1 : ℕ)) := rfl
    rw [h]
    norm_num

theorem ensure_numeric_spec_witness :
    (∀ c ∈ " ".data, isSpaceChar c = true) ∧ ensure_numeric " ".data = none :=
  ⟨by decide, (ensure_numeric_spec " ".data).1 (by decide)⟩

/-- C7 counterexample: the derived amount column multiplies with pandas NaN
propagation, so a null qty and null price give a null amount, not 0. -/
theorem deriveAmount_counterexample :
    deriveAmount none none = none ∧ (none : Option ℚ) ≠ some 0 :=
  ⟨rfl, by decide⟩

/-- C7 (amended): the derived amount is qty * price with null propagation — a present
qty and price multiply exactly (6000 × 60.6 = 363600), but an absent qty or price
makes the amount null rather than contributing zero. -/
theorem deriveAmount_spec :
    (∀ a b : ℚ, deriveAmount (some a) (some b) = some (a * b)) ∧
    (∀ p : Option ℚ, deriveAmount none p = none) ∧
    (∀ q : Option ℚ, deriveAmount q none = none) ∧
    deriveAmount (some 6000) (some (303 / 5)) = some 363600 := by
  refine ⟨fun a b => rfl, fun p => rfl, fun q => ?_, ?_⟩
  · cases q <;> rfl
  · show some ((6000 : ℚ) * (303 / 5)) = some 363600
    norm_num

theorem maxCellLen_replicate_none (n : ℕ) : maxCellLen (List.replicate n none) = 0 := by
  unfold maxCellLen
  induction n with
  | zero => rfl
  | succ k ih =>
    rw [List.replicate_succ, List.foldl_cons]
    exact ih

/-- C10: for every column, the width assigned by `auto_width` lies between 10 and 60
inclusive, and a column whose cells are all empty gets width 10. -/
theorem auto_width_bounds (cells : List (Option (List Char))) :
    10 ≤ autoWidth cells ∧ autoWidth cells ≤ 60 ∧
    (∀ n, autoWidth (List.replicate n none) = 10) := by
  refine ⟨Nat.le_max_left _ _, ?_, ?_⟩
  · exact max_le (by norm_num) (Nat.min_le_right _ _)
  · intro n
    unfold autoWidth
    rw [maxCellLen_replicate_none]
    rfl

end POApp
